import Mathlib

/-!
Shallow embedding of the recipe-app-api repository: the recipe / tag /
ingredient relational data model and its API-level rules.

The repository's `src/` snapshot contains the user serializer
(`app/user/serializers.py`), the recipe serializer field list
(`app/recipe/serializers.py`), the migrations adding `difficulty`
(`0003_recipe_difficulty.py`: PositiveSmallIntegerField, MaxValueValidator 5)
and `timestamp` (`0004_recipe_timestamp.py`: auto_now_add), the URL tables and
the test suites.  The recipe viewset, the detail serializer with nested
tag/ingredient handling, and `core/models.py` are not under `src/`; those
operations are modelled from the spec (sections 4.1-4.4), as marked on each
definition.
-/

namespace RecipeApp

/-- A tag record: `core.models.Tag` (name, owner), many-to-many with Recipe. -/
structure Tag where
  id : Nat
  name : String
  user : Nat
deriving Repr, DecidableEq

/-- An ingredient record: `core.models.Ingredient` (name, owner, optional
amount added by migration 0002). -/
structure Ingredient where
  id : Nat
  name : String
  user : Nat
  amount : Option Nat
deriving Repr, DecidableEq

/-- A recipe record with the scalar attributes listed in the spec's data model
and the two many-to-many relationship sets, held as lists of related ids.
`difficulty` is an integer (migration 0003), `timestamp` a creation instant
(migration 0004, `auto_now_add`), modelled as an abstract clock tick; `none`
models a null column value. -/
structure Recipe where
  id : Nat
  user : Nat
  title : String
  time_minutes : Nat
  price : String
  link : String
  description : String
  portions : Option String
  difficulty : Int
  timestamp : Option Nat
  image : Option String
  tagIds : List Nat
  ingredientIds : List Nat
deriving Repr, DecidableEq

/-- A stored user account: email identity, hashed password, display name. -/
structure UserRec where
  id : Nat
  email : String
  password : String
  name : String
deriving Repr, DecidableEq

/-- The backing store: one table per entity plus primary-key counters. -/
structure Db where
  users : List UserRec
  tags : List Tag
  ingredients : List Ingredient
  recipes : List Recipe
  nextUserId : Nat
  nextTagId : Nat
  nextIngredientId : Nat
  nextRecipeId : Nat
deriving Repr, DecidableEq

/-- The error taxonomy of spec section 7, as surfaced by HTTP status:
401 unauthorized, 403 forbidden, 404 not-found, 400 field-scoped validation
failure. -/
inductive ApiError where
  | unauthorized
  | forbidden
  | notFound
  | validation (field : String)
deriving Repr, DecidableEq

/-- A nested tag descriptor in a recipe write payload: `{"name": ...}`. -/
structure TagIn where
  name : String
deriving Repr, DecidableEq

/-- A nested ingredient descriptor in a recipe write payload: a name,
optionally an amount. -/
structure IngIn where
  name : String
  amount : Option Nat
deriving Repr, DecidableEq

/-- A recipe create payload.  An absent `tags`/`ingredients` key behaves as
the empty list on create. -/
structure RecipeCreateIn where
  title : String
  time_minutes : Nat
  price : String
  link : Option String
  description : Option String
  portions : Option String
  difficulty : Option Int
  tags : List TagIn
  ingredients : List IngIn
deriving Repr, DecidableEq

/-- A recipe full/partial update payload: `none` means the key is absent.
The `user` key can be submitted on the wire but is not among the serializer's
declared fields (`RecipeSerializer.Meta.fields` in
`src/app/recipe/serializers.py` lists no user field), so the update operation
never reads it. -/
structure RecipePatchIn where
  title : Option String
  time_minutes : Option Nat
  price : Option String
  link : Option String
  description : Option String
  portions : Option String
  difficulty : Option Int
  user : Option Nat
  tags : Option (List TagIn)
  ingredients : Option (List IngIn)
deriving Repr, DecidableEq

/-- Attach a related id to a relationship set: a no-op when already attached
(many-to-many `add` semantics). -/
def addRel (ids : List Nat) (i : Nat) : List Nat :=
  if i ∈ ids then ids else ids ++ [i]

/-- Modelled from the spec: nested tag resolution, step for one descriptor
(spec 4.2; the serializer method is not under `src/`).  Look up an existing
tag with matching name owned by the current user; reuse it when found,
otherwise create a new one owned by that user. -/
def getOrCreateTag (u : Nat) (d : TagIn) (db : Db) : Nat × Db :=
  match db.tags.find? (fun t => t.user == u && t.name == d.name) with
  | some t => (t.id, db)
  | none =>
      (db.nextTagId,
       { db with
           tags := db.tags ++ [⟨db.nextTagId, d.name, u⟩],
           nextTagId := db.nextTagId + 1 })

/-- Modelled from the spec: resolve a list of tag descriptors independently,
left to right, accumulating the attached ids (spec 4.2). -/
def resolveTags (u : Nat) (ds : List TagIn) (acc : List Nat) (db : Db) :
    List Nat × Db :=
  match ds with
  | [] => (acc, db)
  | d :: rest =>
      let p := getOrCreateTag u d db
      resolveTags u rest (addRel acc p.1) p.2

/-- Modelled from the spec: nested ingredient resolution, step for one
descriptor (spec 4.2): match by name scoped to the current user, create when
absent. -/
def getOrCreateIngredient (u : Nat) (d : IngIn) (db : Db) : Nat × Db :=
  match db.ingredients.find? (fun i => i.user == u && i.name == d.name) with
  | some i => (i.id, db)
  | none =>
      (db.nextIngredientId,
       { db with
           ingredients :=
             db.ingredients ++ [⟨db.nextIngredientId, d.name, u, d.amount⟩],
           nextIngredientId := db.nextIngredientId + 1 })

/-- Modelled from the spec: resolve a list of ingredient descriptors
independently, left to right (spec 4.2). -/
def resolveIngredients (u : Nat) (ds : List IngIn) (acc : List Nat) (db : Db) :
    List Nat × Db :=
  match ds with
  | [] => (acc, db)
  | d :: rest =>
      let p := getOrCreateIngredient u d db
      resolveIngredients u rest (addRel acc p.1) p.2

/-- The difficulty bound from migration `0003_recipe_difficulty.py`:
`PositiveSmallIntegerField` (non-negative) with `MaxValueValidator(5)`. -/
def checkDifficulty (d : Int) : Bool :=
  0 ≤ d && d ≤ 5

/-- Modelled from the spec: the record and store produced by a successful
recipe creation — nested descriptors resolved, creation instant stamped from
the clock (`auto_now_add`, migration 0004), new recipe owned by the caller. -/
def createRecipeData (db : Db) (u clock : Nat) (p : RecipeCreateIn) :
    Recipe × Db :=
  let rt := resolveTags u p.tags [] db
  let ri := resolveIngredients u p.ingredients [] rt.2
  let r : Recipe :=
    { id := ri.2.nextRecipeId
      user := u
      title := p.title
      time_minutes := p.time_minutes
      price := p.price
      link := p.link.getD ""
      description := p.description.getD ""
      portions := p.portions
      difficulty := p.difficulty.getD 0
      timestamp := some clock
      image := none
      tagIds := rt.1
      ingredientIds := ri.1 }
  (r,
   { ri.2 with
       recipes := ri.2.recipes ++ [r],
       nextRecipeId := ri.2.nextRecipeId + 1 })

/-- Modelled from the spec: recipe creation (the viewset and detail serializer
are not under `src/`).  Validates `difficulty` (migration 0003 bounds, default
0) before storing; on validation failure the store is unchanged. -/
def createRecipe (db : Db) (u clock : Nat) (p : RecipeCreateIn) :
    Except ApiError Recipe × Db :=
  if checkDifficulty (p.difficulty.getD 0) then
    (.ok (createRecipeData db u clock p).1, (createRecipeData db u clock p).2)
  else
    (.error (.validation "difficulty"), db)

/-- Modelled from the spec: apply the scalar keys present in an update payload
to a stored recipe.  The owner and the creation timestamp are not serializer
fields (`user` absent from the declared field list, `timestamp` is
`auto_now_add`), so they are left untouched. -/
def applyScalars (r : Recipe) (p : RecipePatchIn) : Recipe :=
  { r with
      title := p.title.getD r.title
      time_minutes := p.time_minutes.getD r.time_minutes
      price := p.price.getD r.price
      link := p.link.getD r.link
      description := p.description.getD r.description
      portions := match p.portions with
        | some x => some x
        | none => r.portions
      difficulty := p.difficulty.getD r.difficulty }

/-- Modelled from the spec: the new relationship set for the `tags` field of
an update — the resolved set of the supplied descriptors when the key is
present, the previous set when absent — together with the store after
resolution. -/
def patchTagIds (db : Db) (u : Nat) (r : Recipe) (p : RecipePatchIn) :
    List Nat × Db :=
  match p.tags with
  | some ds => resolveTags u ds [] db
  | none => (r.tagIds, db)

/-- Modelled from the spec: the new relationship set for the `ingredients`
field of an update, as for `patchTagIds`. -/
def patchIngredientIds (db : Db) (u : Nat) (r : Recipe) (p : RecipePatchIn) :
    List Nat × Db :=
  match p.ingredients with
  | some ds => resolveIngredients u ds [] db
  | none => (r.ingredientIds, db)

/-- Modelled from the spec: the updated version of a stored recipe: scalar
keys applied, relationship sets replaced field-wise when present in the
payload. -/
def updatedRecipe (db : Db) (u : Nat) (r : Recipe) (p : RecipePatchIn) : Recipe :=
  { applyScalars r p with
      tagIds := (patchTagIds db u r p).1
      ingredientIds := (patchIngredientIds (patchTagIds db u r p).2 u r p).1 }

/-- Modelled from the spec: the store after a successful update of recipe `r`:
the stores of the two resolutions, with the updated row written back in
place. -/
def updatedDb (db : Db) (u : Nat) (r : Recipe) (p : RecipePatchIn) : Db :=
  let db2 := (patchIngredientIds (patchTagIds db u r p).2 u r p).2
  { db2 with
      recipes := db2.recipes.map
        (fun x => if x.id == r.id then updatedRecipe db u r p else x) }

/-- Modelled from the spec: the body of a recipe update once the target is
found and validation passed: resolve `tags` then `ingredients`, write the
updated row back in place. -/
def updateBody (db : Db) (u : Nat) (r : Recipe) (p : RecipePatchIn) :
    Except ApiError Recipe × Db :=
  (.ok (updatedRecipe db u r p), updatedDb db u r p)

/-- Modelled from the spec: recipe full/partial update (spec 4.1-4.4; the
viewset is not under `src/`).  The target is looked up in the caller's
ownership scope: a miss — including another user's recipe — is a not-found
outcome with the store unchanged.  A present `difficulty` outside the
migration bounds is a validation failure with the store unchanged. -/
def updateRecipe (db : Db) (u rid : Nat) (p : RecipePatchIn) :
    Except ApiError Recipe × Db :=
  match db.recipes.find? (fun r => r.id == rid && r.user == u) with
  | none => (.error .notFound, db)
  | some r =>
      match p.difficulty with
      | some d =>
          if checkDifficulty d then updateBody db u r p
          else (.error (.validation "difficulty"), db)
      | none => updateBody db u r p

/-- Modelled from the spec: recipe deletion (spec 4.1; the viewset is not
under `src/`).  Scoped to the caller: deleting a recipe not in the caller's
scope — notably another user's — returns not-found and leaves the store
unchanged; otherwise the recipe row is removed. -/
def deleteRecipe (db : Db) (u rid : Nat) : Except ApiError Unit × Db :=
  if db.recipes.any (fun r => r.id == rid && r.user == u) then
    (.ok (),
     { db with recipes := db.recipes.filter (fun r => !(r.id == rid && r.user == u)) })
  else
    (.error .notFound, db)

/-- Modelled from the spec: parse a comma-separated list of integer ids from
a query parameter (spec 4.3). -/
def parseIds (s : String) : List Nat :=
  (s.splitOn ",").filterMap (fun x => x.toNat?)

/-- A recipe matches a tag-id filter when it has at least one tag whose id is
in the given set. -/
def recipeMatchesTags (r : Recipe) (ids : List Nat) : Bool :=
  r.tagIds.any (fun t => ids.contains t)

/-- A recipe matches an ingredient-id filter when it has at least one
ingredient whose id is in the given set. -/
def recipeMatchesIngredients (r : Recipe) (ids : List Nat) : Bool :=
  r.ingredientIds.any (fun i => ids.contains i)

/-- Modelled from the spec: the recipe list operation (spec 4.1, 4.3; the
viewset is not under `src/`).  Owner-scoped, then filtered by the optional
`tags` / `ingredients` comma-separated id parameters. -/
def listRecipes (db : Db) (u : Nat) (tagsQ ingsQ : Option String) : List Recipe :=
  (db.recipes.filter (fun r => r.user == u)).filter (fun r =>
    (match tagsQ with
     | some s => recipeMatchesTags r (parseIds s)
     | none => true) &&
    (match ingsQ with
     | some s => recipeMatchesIngredients r (parseIds s)
     | none => true))

/-- Modelled from the spec: the ingredient list operation with the
`assigned_only` flag (spec 4.3): owner-scoped, and when the flag is set,
restricted to ingredients referenced by at least one of the caller's
recipes. -/
def listIngredients (db : Db) (u : Nat) (assignedOnly : Bool) : List Ingredient :=
  (db.ingredients.filter (fun i => i.user == u)).filter (fun i =>
    !assignedOnly || db.recipes.any (fun r => r.user == u && r.ingredientIds.contains i.id))

/-- Modelled from the spec: the tag list operation with the `assigned_only`
flag (spec 4.3). -/
def listTags (db : Db) (u : Nat) (assignedOnly : Bool) : List Tag :=
  (db.tags.filter (fun t => t.user == u)).filter (fun t =>
    !assignedOnly || db.recipes.any (fun r => r.user == u && r.tagIds.contains t.id))

/-- The user serializer's declared fields with their write-only flags, from
`src/app/user/serializers.py`: `fields = ["email", "password", "name"]` with
`extra_kwargs = {"password": {"write_only": True, "min_length": 5}}`. -/
def userFields : List (String × Bool) :=
  [("email", false), ("password", true), ("name", false)]

/-- Read a user field by serializer field name. -/
def userFieldValue (u : UserRec) (f : String) : String :=
  if f == "email" then u.email
  else if f == "password" then u.password
  else if f == "name" then u.name
  else ""

/-- Serialize a user to its wire representation: the declared fields minus
the write-only ones, in declaration order. -/
def serializeUser (u : UserRec) : List (String × String) :=
  (userFields.filter (fun f => !f.2)).map (fun f => (f.1, userFieldValue u f.1))

/-- A user-create payload. -/
structure UserIn where
  email : String
  password : String
  name : String
deriving Repr, DecidableEq

/-- The password minimum length from the serializer's `extra_kwargs` in
`src/app/user/serializers.py`. -/
def minPasswordLength : Nat := 5

/-- User creation through `CreateUserView` (`src/app/user/views.py`): the
serializer validates the password length and the email identity's uniqueness,
then stores the account; the response body is the serialized (non-write-only)
representation.  On a validation failure no record is created. -/
def createUser (db : Db) (p : UserIn) :
    Except ApiError (List (String × String)) × Db :=
  if p.password.length < minPasswordLength then
    (.error (.validation "password"), db)
  else if db.users.any (fun x => x.email == p.email) then
    (.error (.validation "email"), db)
  else
    let u : UserRec := ⟨db.nextUserId, p.email, p.password, p.name⟩
    (.ok (serializeUser u),
     { db with users := db.users ++ [u], nextUserId := db.nextUserId + 1 })

/-- Well-formedness of the store: primary keys are distinct within each table
and below the table's next-key counter, as the backing store guarantees. -/
def Db.Wf (db : Db) : Prop :=
  (db.recipes.map Recipe.id).Nodup ∧
  (db.tags.map Tag.id).Nodup ∧
  (db.ingredients.map Ingredient.id).Nodup ∧
  (∀ r ∈ db.recipes, r.id < db.nextRecipeId) ∧
  (∀ t ∈ db.tags, t.id < db.nextTagId) ∧
  (∀ i ∈ db.ingredients, i.id < db.nextIngredientId)

instance (db : Db) : Decidable db.Wf := by
  unfold Db.Wf
  infer_instance

/-- The empty store. -/
def emptyDb : Db :=
  { users := []
    tags := []
    ingredients := []
    recipes := []
    nextUserId := 0
    nextTagId := 0
    nextIngredientId := 0
    nextRecipeId := 0 }

/-- The number of tag records with the given owner and name. -/
def countTag (db : Db) (u : Nat) (n : String) : Nat :=
  (db.tags.filter (fun t => t.user == u && t.name == n)).length

/-- The names carried by a list of tag descriptors. -/
def tagNames (ds : List TagIn) : List String :=
  ds.map TagIn.name

/-- The names carried by a list of ingredient descriptors. -/
def ingredientNames (ds : List IngIn) : List String :=
  ds.map IngIn.name

/-- Sample tag, owned by user 1. -/
def tagA : Tag := { id := 5, name := "Vegan", user := 1 }

/-- Sample ingredient, owned by user 1. -/
def ingredientA : Ingredient := { id := 7, name := "Salt", user := 1, amount := none }

/-- Sample recipe owned by user 2, with no relationships. -/
def recipeA : Recipe :=
  { id := 10
    user := 2
    title := "Sample recipe title"
    time_minutes := 22
    price := "5.25"
    link := "http://example.om/recipe.pdf"
    description := "Sample description."
    portions := some "2.5"
    difficulty := 0
    timestamp := some 3
    image := none
    tagIds := []
    ingredientIds := [] }

/-- Sample recipe owned by user 1, referencing the sample tag and
ingredient. -/
def recipeB : Recipe :=
  { id := 11
    user := 1
    title := "Second sample"
    time_minutes := 10
    price := "2.00"
    link := ""
    description := ""
    portions := none
    difficulty := 3
    timestamp := some 4
    image := none
    tagIds := [5]
    ingredientIds := [7] }

/-- Sample store holding the records above. -/
def dbA : Db :=
  { users := []
    tags := [tagA]
    ingredients := [ingredientA]
    recipes := [recipeA, recipeB]
    nextUserId := 0
    nextTagId := 6
    nextIngredientId := 8
    nextRecipeId := 12 }

/-- A patch payload with every key absent. -/
def emptyPatch : RecipePatchIn :=
  { title := none
    time_minutes := none
    price := none
    link := none
    description := none
    portions := none
    difficulty := none
    user := none
    tags := none
    ingredients := none }

/-- The recipe produced by creating `plainCreate` in the sample store for
user 1 at clock 42. -/
def recipeC : Recipe :=
  { id := 12
    user := 1
    title := "Test title"
    time_minutes := 20
    price := "12.34"
    link := ""
    description := ""
    portions := some "2.5"
    difficulty := 5
    timestamp := some 42
    image := none
    tagIds := []
    ingredientIds := [] }

/-- The sample store after that creation. -/
def dbB : Db :=
  { dbA with recipes := [recipeA, recipeB, recipeC], nextRecipeId := 13 }

/-- A create payload carrying one nested tag descriptor named Vegan. -/
def createVegan : RecipeCreateIn :=
  { title := "Test title"
    time_minutes := 20
    price := "12.34"
    link := none
    description := none
    portions := some "2.5"
    difficulty := some 5
    tags := [⟨"Vegan"⟩]
    ingredients := [] }

/-- The tag created by the first Vegan creation in the empty store. -/
def tagV : Tag := { id := 0, name := "Vegan", user := 1 }

/-- The first recipe created from `createVegan` in the empty store. -/
def recipeV1 : Recipe :=
  { id := 0
    user := 1
    title := "Test title"
    time_minutes := 20
    price := "12.34"
    link := ""
    description := ""
    portions := some "2.5"
    difficulty := 5
    timestamp := some 1
    image := none
    tagIds := [0]
    ingredientIds := [] }

/-- The second recipe created from `createVegan`, sharing tag 0. -/
def recipeV2 : Recipe :=
  { recipeV1 with id := 1, timestamp := some 2 }

/-- The store after the first Vegan creation. -/
def dbV1 : Db :=
  { users := []
    tags := [tagV]
    ingredients := []
    recipes := [recipeV1]
    nextUserId := 0
    nextTagId := 1
    nextIngredientId := 0
    nextRecipeId := 1 }

/-- The store after the second Vegan creation. -/
def dbV2 : Db :=
  { dbV1 with recipes := [recipeV1, recipeV2], nextRecipeId := 2 }

/-- A patch payload replacing the tag set with the Vegan descriptor and
clearing the ingredient set. -/
def patchRelations : RecipePatchIn :=
  { title := none
    time_minutes := none
    price := none
    link := none
    description := none
    portions := none
    difficulty := none
    user := none
    tags := some [⟨"Vegan"⟩]
    ingredients := some [] }

/-- The sample recipe 11 after `patchRelations`: same tag, no ingredients. -/
def recipeB2 : Recipe := { recipeB with ingredientIds := [] }

/-- The sample store after patching recipe 11 with `patchRelations`. -/
def dbC : Db := { dbA with recipes := [recipeA, recipeB2] }

/-- A patch payload submitting a new title, a difficulty and a user value. -/
def patchWithUser : RecipePatchIn :=
  { emptyPatch with
      title := some "New recipe title"
      user := some 3
      difficulty := some 3 }

/-- A create payload with no nested descriptors. -/
def plainCreate : RecipeCreateIn :=
  { title := "Test title"
    time_minutes := 20
    price := "12.34"
    link := none
    description := none
    portions := some "2.5"
    difficulty := some 5
    tags := []
    ingredients := [] }

theorem getOrCreateTag_recipes (u : Nat) (d : TagIn) (db : Db) :
    (getOrCreateTag u d db).2.recipes = db.recipes := by
  cases hf : db.tags.find? (fun t => t.user == u && t.name == d.name) <;>
    simp [getOrCreateTag, hf]

theorem getOrCreateTag_ingredients (u : Nat) (d : TagIn) (db : Db) :
    (getOrCreateTag u d db).2.ingredients = db.ingredients := by
  cases hf : db.tags.find? (fun t => t.user == u && t.name == d.name) <;>
    simp [getOrCreateTag, hf]

theorem getOrCreateTag_nextRecipeId (u : Nat) (d : TagIn) (db : Db) :
    (getOrCreateTag u d db).2.nextRecipeId = db.nextRecipeId := by
  cases hf : db.tags.find? (fun t => t.user == u && t.name == d.name) <;>
    simp [getOrCreateTag, hf]

theorem getOrCreateTag_nextIngredientId (u : Nat) (d : TagIn) (db : Db) :
    (getOrCreateTag u d db).2.nextIngredientId = db.nextIngredientId := by
  cases hf : db.tags.find? (fun t => t.user == u && t.name == d.name) <;>
    simp [getOrCreateTag, hf]

theorem getOrCreateTag_tags_append (u : Nat) (d : TagIn) (db : Db) :
    ∃ l, (getOrCreateTag u d db).2.tags = db.tags ++ l := by
  cases hf : db.tags.find? (fun t => t.user == u && t.name == d.name)
  · exact ⟨[⟨db.nextTagId, d.name, u⟩], by simp [getOrCreateTag, hf]⟩
  · exact ⟨[], by simp [getOrCreateTag, hf]⟩

theorem resolveTags_recipes (u : Nat) (ds : List TagIn) (acc : List Nat) (db : Db) :
    (resolveTags u ds acc db).2.recipes = db.recipes := by
  induction ds generalizing acc db with
  | nil => rfl
  | cons d rest ih =>
      simp only [resolveTags]
      exact (ih _ _).trans (getOrCreateTag_recipes u d db)

theorem resolveTags_ingredients (u : Nat) (ds : List TagIn) (acc : List Nat) (db : Db) :
    (resolveTags u ds acc db).2.ingredients = db.ingredients := by
  induction ds generalizing acc db with
  | nil => rfl
  | cons d rest ih =>
      simp only [resolveTags]
      exact (ih _ _).trans (getOrCreateTag_ingredients u d db)

theorem resolveTags_nextRecipeId (u : Nat) (ds : List TagIn) (acc : List Nat) (db : Db) :
    (resolveTags u ds acc db).2.nextRecipeId = db.nextRecipeId := by
  induction ds generalizing acc db with
  | nil => rfl
  | cons d rest ih =>
      simp only [resolveTags]
      exact (ih _ _).trans (getOrCreateTag_nextRecipeId u d db)

theorem resolveTags_nextIngredientId (u : Nat) (ds : List TagIn) (acc : List Nat) (db : Db) :
    (resolveTags u ds acc db).2.nextIngredientId = db.nextIngredientId := by
  induction ds generalizing acc db with
  | nil => rfl
  | cons d rest ih =>
      simp only [resolveTags]
      exact (ih _ _).trans (getOrCreateTag_nextIngredientId u d db)

theorem resolveTags_tags_append (u : Nat) (ds : List TagIn) (acc : List Nat) (db : Db) :
    ∃ l, (resolveTags u ds acc db).2.tags = db.tags ++ l := by
  induction ds generalizing acc db with
  | nil => exact ⟨[], by simp [resolveTags]⟩
  | cons d rest ih =>
      obtain ⟨l1, h1⟩ := getOrCreateTag_tags_append u d db
      obtain ⟨l2, h2⟩ := ih (addRel acc (getOrCreateTag u d db).1) (getOrCreateTag u d db).2
      refine ⟨l1 ++ l2, ?_⟩
      simp only [resolveTags]
      rw [h2, h1, List.append_assoc]

theorem getOrCreateIngredient_recipes (u : Nat) (d : IngIn) (db : Db) :
    (getOrCreateIngredient u d db).2.recipes = db.recipes := by
  cases hf : db.ingredients.find? (fun i => i.user == u && i.name == d.name) <;>
    simp [getOrCreateIngredient, hf]

theorem getOrCreateIngredient_tags (u : Nat) (d : IngIn) (db : Db) :
    (getOrCreateIngredient u d db).2.tags = db.tags := by
  cases hf : db.ingredients.find? (fun i => i.user == u && i.name == d.name) <;>
    simp [getOrCreateIngredient, hf]

theorem getOrCreateIngredient_nextRecipeId (u : Nat) (d : IngIn) (db : Db) :
    (getOrCreateIngredient u d db).2.nextRecipeId = db.nextRecipeId := by
  cases hf : db.ingredients.find? (fun i => i.user == u && i.name == d.name) <;>
    simp [getOrCreateIngredient, hf]

theorem getOrCreateIngredient_nextTagId (u : Nat) (d : IngIn) (db : Db) :
    (getOrCreateIngredient u d db).2.nextTagId = db.nextTagId := by
  cases hf : db.ingredients.find? (fun i => i.user == u && i.name == d.name) <;>
    simp [getOrCreateIngredient, hf]

theorem getOrCreateIngredient_ingredients_append (u : Nat) (d : IngIn) (db : Db) :
    ∃ l, (getOrCreateIngredient u d db).2.ingredients = db.ingredients ++ l := by
  cases hf : db.ingredients.find? (fun i => i.user == u && i.name == d.name)
  · exact ⟨[⟨db.nextIngredientId, d.name, u, d.amount⟩], by simp [getOrCreateIngredient, hf]⟩
  · exact ⟨[], by simp [getOrCreateIngredient, hf]⟩

theorem resolveIngredients_recipes (u : Nat) (ds : List IngIn) (acc : List Nat) (db : Db) :
    (resolveIngredients u ds acc db).2.recipes = db.recipes := by
  induction ds generalizing acc db with
  | nil => rfl
  | cons d rest ih =>
      simp only [resolveIngredients]
      exact (ih _ _).trans (getOrCreateIngredient_recipes u d db)

theorem resolveIngredients_tags (u : Nat) (ds : List IngIn) (acc : List Nat) (db : Db) :
    (resolveIngredients u ds acc db).2.tags = db.tags := by
  induction ds generalizing acc db with
  | nil => rfl
  | cons d rest ih =>
      simp only [resolveIngredients]
      exact (ih _ _).trans (getOrCreateIngredient_tags u d db)

theorem resolveIngredients_nextRecipeId (u : Nat) (ds : List IngIn) (acc : List Nat) (db : Db) :
    (resolveIngredients u ds acc db).2.nextRecipeId = db.nextRecipeId := by
  induction ds generalizing acc db with
  | nil => rfl
  | cons d rest ih =>
      simp only [resolveIngredients]
      exact (ih _ _).trans (getOrCreateIngredient_nextRecipeId u d db)

theorem resolveIngredients_nextTagId (u : Nat) (ds : List IngIn) (acc : List Nat) (db : Db) :
    (resolveIngredients u ds acc db).2.nextTagId = db.nextTagId := by
  induction ds generalizing acc db with
  | nil => rfl
  | cons d rest ih =>
      simp only [resolveIngredients]
      exact (ih _ _).trans (getOrCreateIngredient_nextTagId u d db)

theorem resolveIngredients_ingredients_append (u : Nat) (ds : List IngIn) (acc : List Nat) (db : Db) :
    ∃ l, (resolveIngredients u ds acc db).2.ingredients = db.ingredients ++ l := by
  induction ds generalizing acc db with
  | nil => exact ⟨[], by simp [resolveIngredients]⟩
  | cons d rest ih =>
      obtain ⟨l1, h1⟩ := getOrCreateIngredient_ingredients_append u d db
      obtain ⟨l2, h2⟩ := ih (addRel acc (getOrCreateIngredient u d db).1) (getOrCreateIngredient u d db).2
      refine ⟨l1 ++ l2, ?_⟩
      simp only [resolveIngredients]
      rw [h2, h1, List.append_assoc]

theorem createRecipe_ok_inv (db : Db) (u clock : Nat) (p : RecipeCreateIn)
    (r : Recipe) (db' : Db) (h : createRecipe db u clock p = (.ok r, db')) :
    checkDifficulty (p.difficulty.getD 0) = true ∧
    r = (createRecipeData db u clock p).1 ∧ db' = (createRecipeData db u clock p).2 := by
  unfold createRecipe at h
  split at h
  case isTrue hd =>
    have h1 := congrArg Prod.fst h
    have h2 := congrArg Prod.snd h
    simp only [Except.ok.injEq] at h1
    exact ⟨hd, h1.symm, h2.symm⟩
  case isFalse hd => simp at h

theorem createRecipeData_timestamp (db : Db) (u clock : Nat) (p : RecipeCreateIn) :
    (createRecipeData db u clock p).1.timestamp = some clock := rfl

theorem createRecipeData_user (db : Db) (u clock : Nat) (p : RecipeCreateIn) :
    (createRecipeData db u clock p).1.user = u := rfl

theorem createRecipeData_difficulty (db : Db) (u clock : Nat) (p : RecipeCreateIn) :
    (createRecipeData db u clock p).1.difficulty = p.difficulty.getD 0 := rfl

theorem createRecipeData_tagIds (db : Db) (u clock : Nat) (p : RecipeCreateIn) :
    (createRecipeData db u clock p).1.tagIds = (resolveTags u p.tags [] db).1 := rfl

theorem createRecipeData_id (db : Db) (u clock : Nat) (p : RecipeCreateIn) :
    (createRecipeData db u clock p).1.id = db.nextRecipeId := by
  show (resolveIngredients u p.ingredients [] (resolveTags u p.tags [] db).2).2.nextRecipeId
    = db.nextRecipeId
  rw [resolveIngredients_nextRecipeId, resolveTags_nextRecipeId]

theorem createRecipeData_recipes (db : Db) (u clock : Nat) (p : RecipeCreateIn) :
    (createRecipeData db u clock p).2.recipes
      = db.recipes ++ [(createRecipeData db u clock p).1] := by
  show (resolveIngredients u p.ingredients [] (resolveTags u p.tags [] db).2).2.recipes
      ++ [(createRecipeData db u clock p).1]
    = db.recipes ++ [(createRecipeData db u clock p).1]
  rw [resolveIngredients_recipes, resolveTags_recipes]

theorem createRecipeData_tags (db : Db) (u clock : Nat) (p : RecipeCreateIn) :
    (createRecipeData db u clock p).2.tags = (resolveTags u p.tags [] db).2.tags := by
  show (resolveIngredients u p.ingredients [] (resolveTags u p.tags [] db).2).2.tags
    = (resolveTags u p.tags [] db).2.tags
  rw [resolveIngredients_tags]

theorem updateRecipe_ok_inv (db : Db) (u rid : Nat) (p : RecipePatchIn)
    (r' : Recipe) (db' : Db) (h : updateRecipe db u rid p = (.ok r', db')) :
    ∃ r0, db.recipes.find? (fun x => x.id == rid && x.user == u) = some r0 ∧
      (∀ d, p.difficulty = some d → checkDifficulty d = true) ∧
      r' = updatedRecipe db u r0 p ∧ db' = updatedDb db u r0 p := by
  cases hf : db.recipes.find? (fun x => x.id == rid && x.user == u) with
  | none => simp [updateRecipe, hf] at h
  | some r0 =>
      cases hd : p.difficulty with
      | none =>
          simp only [updateRecipe, hf, hd, updateBody, Prod.mk.injEq, Except.ok.injEq] at h
          refine ⟨r0, rfl, ?_, h.1.symm, h.2.symm⟩
          intro d hc
          exact Option.noConfusion hc
      | some d =>
          by_cases hc : checkDifficulty d = true
          · simp only [updateRecipe, hf, hd, hc, if_true, updateBody, Prod.mk.injEq,
              Except.ok.injEq] at h
            refine ⟨r0, rfl, ?_, h.1.symm, h.2.symm⟩
            intro d' hc'
            have hdd : d = d' := by injection hc'
            rw [← hdd]
            exact hc
          · simp [updateRecipe, hf, hd, hc] at h

theorem updateRecipe_found (db : Db) (u rid : Nat) (p : RecipePatchIn) (r0 : Recipe)
    (hf : db.recipes.find? (fun x => x.id == rid && x.user == u) = some r0)
    (hd : ∀ d, p.difficulty = some d → checkDifficulty d = true) :
    updateRecipe db u rid p = (.ok (updatedRecipe db u r0 p), updatedDb db u r0 p) := by
  cases hdp : p.difficulty with
  | none => simp [updateRecipe, hf, hdp, updateBody]
  | some d => simp [updateRecipe, hf, hdp, hd d hdp, updateBody]

theorem updatedRecipe_id (db : Db) (u : Nat) (r : Recipe) (p : RecipePatchIn) :
    (updatedRecipe db u r p).id = r.id := rfl

theorem updatedRecipe_user (db : Db) (u : Nat) (r : Recipe) (p : RecipePatchIn) :
    (updatedRecipe db u r p).user = r.user := rfl

theorem updatedRecipe_timestamp (db : Db) (u : Nat) (r : Recipe) (p : RecipePatchIn) :
    (updatedRecipe db u r p).timestamp = r.timestamp := rfl

theorem updatedRecipe_title (db : Db) (u : Nat) (r : Recipe) (p : RecipePatchIn) :
    (updatedRecipe db u r p).title = p.title.getD r.title := rfl

theorem updatedRecipe_difficulty (db : Db) (u : Nat) (r : Recipe) (p : RecipePatchIn) :
    (updatedRecipe db u r p).difficulty = p.difficulty.getD r.difficulty := rfl

theorem patchTagIds_some (db : Db) (u : Nat) (r : Recipe) (p : RecipePatchIn)
    (ds : List TagIn) (h : p.tags = some ds) :
    patchTagIds db u r p = resolveTags u ds [] db := by
  simp [patchTagIds, h]

theorem patchIngredientIds_some (db : Db) (u : Nat) (r : Recipe) (p : RecipePatchIn)
    (ds : List IngIn) (h : p.ingredients = some ds) :
    patchIngredientIds db u r p = resolveIngredients u ds [] db := by
  simp [patchIngredientIds, h]

theorem patchIngredientIds_tags (db : Db) (u : Nat) (r : Recipe) (p : RecipePatchIn) :
    (patchIngredientIds db u r p).2.tags = db.tags := by
  cases h : p.ingredients with
  | none => simp [patchIngredientIds, h]
  | some ds => simp [patchIngredientIds, h, resolveIngredients_tags]

theorem patchTagIds_ingredients (db : Db) (u : Nat) (r : Recipe) (p : RecipePatchIn) :
    (patchTagIds db u r p).2.ingredients = db.ingredients := by
  cases h : p.tags with
  | none => simp [patchTagIds, h]
  | some ds => simp [patchTagIds, h, resolveTags_ingredients]

theorem updatedRecipe_tagIds (db : Db) (u : Nat) (r : Recipe) (p : RecipePatchIn) :
    (updatedRecipe db u r p).tagIds = (patchTagIds db u r p).1 := rfl

theorem updatedRecipe_ingredientIds (db : Db) (u : Nat) (r : Recipe) (p : RecipePatchIn) :
    (updatedRecipe db u r p).ingredientIds
      = (patchIngredientIds (patchTagIds db u r p).2 u r p).1 := rfl

theorem updatedDb_tags (db : Db) (u : Nat) (r : Recipe) (p : RecipePatchIn) :
    (updatedDb db u r p).tags = (patchTagIds db u r p).2.tags := by
  show (patchIngredientIds (patchTagIds db u r p).2 u r p).2.tags
    = (patchTagIds db u r p).2.tags
  rw [patchIngredientIds_tags]

theorem updatedDb_ingredients (db : Db) (u : Nat) (r : Recipe) (p : RecipePatchIn) :
    (updatedDb db u r p).ingredients
      = (patchIngredientIds (patchTagIds db u r p).2 u r p).2.ingredients := rfl

theorem countTag_append_single (db db' : Db) (x : Tag) (h : db'.tags = db.tags ++ [x])
    (u : Nat) (n : String) :
    countTag db' u n = countTag db u n + (if x.user = u ∧ x.name = n then 1 else 0) := by
  unfold countTag
  rw [h, List.filter_append, List.length_append]
  congr 1
  by_cases hx : x.user = u ∧ x.name = n
  · simp [List.filter, hx.1, hx.2]
  · rw [if_neg hx]
    have hb : (x.user == u && x.name == n) = false := by
      rcases not_and_or.mp hx with hx1 | hx1 <;> simp [hx1]
    simp [List.filter, hb]

theorem getOrCreateTag_cases (u : Nat) (d : TagIn) (db : Db) :
    ((getOrCreateTag u d db).2 = db ∧
      ∃ t, t ∈ db.tags ∧ t.user = u ∧ t.name = d.name ∧ (getOrCreateTag u d db).1 = t.id) ∨
    (countTag db u d.name = 0 ∧
      (getOrCreateTag u d db).2.tags = db.tags ++ [⟨db.nextTagId, d.name, u⟩] ∧
      (getOrCreateTag u d db).1 = db.nextTagId ∧
      (getOrCreateTag u d db).2.nextTagId = db.nextTagId + 1) := by
  cases hf : db.tags.find? (fun t => t.user == u && t.name == d.name) with
  | some t =>
      left
      have hmem := List.mem_of_find?_eq_some hf
      have hpred := List.find?_some hf
      simp only [Bool.and_eq_true, beq_iff_eq] at hpred
      exact ⟨by simp [getOrCreateTag, hf], t, hmem, hpred.1, hpred.2,
        by simp [getOrCreateTag, hf]⟩
  | none =>
      right
      refine ⟨?_, by simp [getOrCreateTag, hf], by simp [getOrCreateTag, hf],
        by simp [getOrCreateTag, hf]⟩
      unfold countTag
      rw [List.length_eq_zero, List.filter_eq_nil_iff]
      intro t ht
      have := List.find?_eq_none.mp hf t ht
      simpa using this

theorem countTag_pos_of_mem (db : Db) (t : Tag) (ht : t ∈ db.tags) (u : Nat) (n : String)
    (hu : t.user = u) (hn : t.name = n) : 1 ≤ countTag db u n := by
  unfold countTag
  have : t ∈ db.tags.filter (fun x => x.user == u && x.name == n) := by
    rw [List.mem_filter]
    exact ⟨ht, by simp [hu, hn]⟩
  exact List.length_pos.mpr (List.ne_nil_of_mem this)

theorem getOrCreateTag_count_le (u : Nat) (d : TagIn) (db : Db) (u' : Nat) (n' : String)
    (h : countTag db u' n' ≤ 1) : countTag (getOrCreateTag u d db).2 u' n' ≤ 1 := by
  rcases getOrCreateTag_cases u d db with ⟨heq, -⟩ | ⟨h0, happ, -, -⟩
  · rw [heq]; exact h
  · rw [countTag_append_single db _ _ happ]
    by_cases hx : u = u' ∧ d.name = n'
    · obtain ⟨rfl, rfl⟩ := hx
      simp [h0]
    · have : ¬ ((Tag.mk db.nextTagId d.name u).user = u' ∧
          (Tag.mk db.nextTagId d.name u).name = n') := by
        simpa using hx
      rw [if_neg this]
      simpa using h

theorem getOrCreateTag_count_mono (u : Nat) (d : TagIn) (db : Db) (u' : Nat) (n' : String) :
    countTag db u' n' ≤ countTag (getOrCreateTag u d db).2 u' n' := by
  rcases getOrCreateTag_cases u d db with ⟨heq, -⟩ | ⟨-, happ, -, -⟩
  · rw [heq]
  · rw [countTag_append_single db _ _ happ]
    exact Nat.le_add_right _ _

theorem getOrCreateTag_count_ge_one (u : Nat) (d : TagIn) (db : Db) :
    1 ≤ countTag (getOrCreateTag u d db).2 u d.name := by
  rcases getOrCreateTag_cases u d db with ⟨heq, t, hmem, hu, hn, -⟩ | ⟨-, happ, -, -⟩
  · rw [heq]
    exact countTag_pos_of_mem db t hmem u d.name hu hn
  · rw [countTag_append_single db _ _ happ]
    simp

theorem resolveTags_count_le (u : Nat) (ds : List TagIn) (acc : List Nat) (db : Db)
    (u' : Nat) (n' : String) (h : countTag db u' n' ≤ 1) :
    countTag (resolveTags u ds acc db).2 u' n' ≤ 1 := by
  induction ds generalizing acc db with
  | nil => exact h
  | cons d rest ih =>
      simp only [resolveTags]
      exact ih _ _ (getOrCreateTag_count_le u d db u' n' h)

theorem resolveTags_count_mono (u : Nat) (ds : List TagIn) (acc : List Nat) (db : Db)
    (u' : Nat) (n' : String) :
    countTag db u' n' ≤ countTag (resolveTags u ds acc db).2 u' n' := by
  induction ds generalizing acc db with
  | nil => exact Nat.le_refl _
  | cons d rest ih =>
      simp only [resolveTags]
      exact Nat.le_trans (getOrCreateTag_count_mono u d db u' n') (ih _ _)

theorem resolveTags_count_ge_one (u : Nat) (ds : List TagIn) (acc : List Nat) (db : Db)
    (n : String) (hn : n ∈ tagNames ds) :
    1 ≤ countTag (resolveTags u ds acc db).2 u n := by
  induction ds generalizing acc db with
  | nil => cases hn
  | cons d rest ih =>
      simp only [tagNames, List.map_cons, List.mem_cons] at hn
      simp only [resolveTags]
      rcases hn with hn | hn
      · rw [hn]
        exact Nat.le_trans (getOrCreateTag_count_ge_one u d db)
          (resolveTags_count_mono u rest _ _ u d.name)
      · exact ih _ _ hn

theorem mem_addRel_self (ids : List Nat) (i : Nat) : i ∈ addRel ids i := by
  unfold addRel
  split
  · assumption
  · simp

theorem mem_addRel_of_mem (ids : List Nat) (i a : Nat) (h : a ∈ ids) : a ∈ addRel ids i := by
  unfold addRel
  split
  · exact h
  · exact List.mem_append_left _ h

theorem resolveTags_acc_mono (u : Nat) (ds : List TagIn) (acc : List Nat) (db : Db)
    (a : Nat) (h : a ∈ acc) : a ∈ (resolveTags u ds acc db).1 := by
  induction ds generalizing acc db with
  | nil => exact h
  | cons d rest ih =>
      simp only [resolveTags]
      exact ih _ _ (mem_addRel_of_mem _ _ _ h)

theorem getOrCreateTag_spec (u : Nat) (d : TagIn) (db : Db) :
    ∃ t, t ∈ (getOrCreateTag u d db).2.tags ∧ t.id = (getOrCreateTag u d db).1 ∧
      t.user = u ∧ t.name = d.name := by
  rcases getOrCreateTag_cases u d db with ⟨heq, t, hmem, hu, hn, hid⟩ | ⟨-, happ, hid, -⟩
  · exact ⟨t, by rw [heq]; exact hmem, hid.symm, hu, hn⟩
  · refine ⟨⟨db.nextTagId, d.name, u⟩, ?_, by rw [hid], rfl, rfl⟩
    rw [happ]
    exact List.mem_append_right _ (by simp)

theorem mem_tags_of_resolveTags (u : Nat) (ds : List TagIn) (acc : List Nat) (db : Db)
    (t : Tag) (h : t ∈ db.tags) : t ∈ (resolveTags u ds acc db).2.tags := by
  obtain ⟨l, hl⟩ := resolveTags_tags_append u ds acc db
  rw [hl]
  exact List.mem_append_left _ h

theorem resolveTags_attaches (u : Nat) (ds : List TagIn) (acc : List Nat) (db : Db)
    (n : String) (hn : n ∈ tagNames ds) :
    ∃ tid t, tid ∈ (resolveTags u ds acc db).1 ∧ t ∈ (resolveTags u ds acc db).2.tags ∧
      t.id = tid ∧ t.user = u ∧ t.name = n := by
  induction ds generalizing acc db with
  | nil => cases hn
  | cons d rest ih =>
      simp only [tagNames, List.map_cons, List.mem_cons] at hn
      simp only [resolveTags]
      rcases hn with hn | hn
      · obtain ⟨t, hmem, hid, hu, hname⟩ := getOrCreateTag_spec u d db
        refine ⟨(getOrCreateTag u d db).1, t, ?_, ?_, hid, hu, by rw [hname, hn]⟩
        · exact resolveTags_acc_mono u rest _ _ _ (mem_addRel_self _ _)
        · exact mem_tags_of_resolveTags u rest _ _ t hmem
      · exact ih _ _ hn

theorem resolveTags_ids_sound (u : Nat) (ds : List TagIn) (acc : List Nat) (db : Db) :
    ∀ tid ∈ (resolveTags u ds acc db).1,
      tid ∈ acc ∨ ∃ t, t ∈ (resolveTags u ds acc db).2.tags ∧ t.id = tid ∧
        t.user = u ∧ t.name ∈ tagNames ds := by
  induction ds generalizing acc db with
  | nil => exact fun tid h => Or.inl h
  | cons d rest ih =>
      intro tid hmem
      simp only [resolveTags] at hmem ⊢
      rcases ih _ _ tid hmem with hacc | ⟨t, htags, hid, hu, hname⟩
      · unfold addRel at hacc
        split at hacc
        · exact Or.inl hacc
        · rcases List.mem_append.mp hacc with h | h
          · exact Or.inl h
          · obtain ⟨t, hmem', hid, hu, hn⟩ := getOrCreateTag_spec u d db
            rw [List.mem_singleton] at h
            refine Or.inr ⟨t, mem_tags_of_resolveTags u rest _ _ t hmem', ?_, hu, ?_⟩
            · rw [hid, h]
            · rw [hn]
              simp [tagNames]
      · refine Or.inr ⟨t, htags, hid, hu, ?_⟩
        simp only [tagNames, List.map_cons, List.mem_cons]
        right
        simpa [tagNames] using hname

theorem getOrCreateTag_table_wf (u : Nat) (d : TagIn) (db : Db)
    (h1 : (db.tags.map Tag.id).Nodup) (h2 : ∀ t ∈ db.tags, t.id < db.nextTagId) :
    ((getOrCreateTag u d db).2.tags.map Tag.id).Nodup ∧
    ∀ t ∈ (getOrCreateTag u d db).2.tags, t.id < (getOrCreateTag u d db).2.nextTagId := by
  cases hf : db.tags.find? (fun t => t.user == u && t.name == d.name) with
  | some t => simp only [getOrCreateTag, hf]; exact ⟨h1, h2⟩
  | none =>
      simp only [getOrCreateTag, hf]
      constructor
      · rw [List.map_append, List.nodup_append]
        refine ⟨h1, by simp, ?_⟩
        intro x hx hx2
        simp only [List.map_cons, List.map_nil, List.mem_singleton] at hx2
        obtain ⟨t, ht, rfl⟩ := List.mem_map.mp hx
        exact Nat.lt_irrefl _ (hx2 ▸ h2 t ht)
      · intro t ht
        rcases List.mem_append.mp ht with h | h
        · exact Nat.lt_trans (h2 t h) (Nat.lt_succ_self _)
        · rw [List.mem_singleton] at h
          rw [h]
          exact Nat.lt_succ_self _

theorem resolveTags_table_wf (u : Nat) (ds : List TagIn) (acc : List Nat) (db : Db)
    (h1 : (db.tags.map Tag.id).Nodup) (h2 : ∀ t ∈ db.tags, t.id < db.nextTagId) :
    ((resolveTags u ds acc db).2.tags.map Tag.id).Nodup ∧
    ∀ t ∈ (resolveTags u ds acc db).2.tags, t.id < (resolveTags u ds acc db).2.nextTagId := by
  induction ds generalizing acc db with
  | nil => exact ⟨h1, h2⟩
  | cons d rest ih =>
      simp only [resolveTags]
      obtain ⟨h1', h2'⟩ := getOrCreateTag_table_wf u d db h1 h2
      exact ih _ _ h1' h2'

theorem getOrCreateIngredient_spec (u : Nat) (d : IngIn) (db : Db) :
    ∃ i, i ∈ (getOrCreateIngredient u d db).2.ingredients ∧
      i.id = (getOrCreateIngredient u d db).1 ∧ i.user = u ∧ i.name = d.name := by
  cases hf : db.ingredients.find? (fun i => i.user == u && i.name == d.name) with
  | some i =>
      have hmem := List.mem_of_find?_eq_some hf
      have hpred := List.find?_some hf
      simp only [Bool.and_eq_true, beq_iff_eq] at hpred
      exact ⟨i, by simp [getOrCreateIngredient, hf, hmem], by simp [getOrCreateIngredient, hf],
        hpred.1, hpred.2⟩
  | none =>
      refine ⟨⟨db.nextIngredientId, d.name, u, d.amount⟩, ?_,
        by simp [getOrCreateIngredient, hf], rfl, rfl⟩
      simp [getOrCreateIngredient, hf]

theorem mem_ingredients_of_resolveIngredients (u : Nat) (ds : List IngIn) (acc : List Nat)
    (db : Db) (i : Ingredient) (h : i ∈ db.ingredients) :
    i ∈ (resolveIngredients u ds acc db).2.ingredients := by
  obtain ⟨l, hl⟩ := resolveIngredients_ingredients_append u ds acc db
  rw [hl]
  exact List.mem_append_left _ h

theorem resolveIngredients_acc_mono (u : Nat) (ds : List IngIn) (acc : List Nat) (db : Db)
    (a : Nat) (h : a ∈ acc) : a ∈ (resolveIngredients u ds acc db).1 := by
  induction ds generalizing acc db with
  | nil => exact h
  | cons d rest ih =>
      simp only [resolveIngredients]
      exact ih _ _ (mem_addRel_of_mem _ _ _ h)

theorem resolveIngredients_attaches (u : Nat) (ds : List IngIn) (acc : List Nat) (db : Db)
    (n : String) (hn : n ∈ ingredientNames ds) :
    ∃ iid i, iid ∈ (resolveIngredients u ds acc db).1 ∧
      i ∈ (resolveIngredients u ds acc db).2.ingredients ∧
      i.id = iid ∧ i.user = u ∧ i.name = n := by
  induction ds generalizing acc db with
  | nil => cases hn
  | cons d rest ih =>
      simp only [ingredientNames, List.map_cons, List.mem_cons] at hn
      simp only [resolveIngredients]
      rcases hn with hn | hn
      · obtain ⟨i, hmem, hid, hu, hname⟩ := getOrCreateIngredient_spec u d db
        refine ⟨(getOrCreateIngredient u d db).1, i, ?_, ?_, hid, hu, by rw [hname, hn]⟩
        · exact resolveIngredients_acc_mono u rest _ _ _ (mem_addRel_self _ _)
        · exact mem_ingredients_of_resolveIngredients u rest _ _ i hmem
      · exact ih _ _ hn

theorem resolveIngredients_ids_sound (u : Nat) (ds : List IngIn) (acc : List Nat) (db : Db) :
    ∀ iid ∈ (resolveIngredients u ds acc db).1,
      iid ∈ acc ∨ ∃ i, i ∈ (resolveIngredients u ds acc db).2.ingredients ∧ i.id = iid ∧
        i.user = u ∧ i.name ∈ ingredientNames ds := by
  induction ds generalizing acc db with
  | nil => exact fun iid h => Or.inl h
  | cons d rest ih =>
      intro iid hmem
      simp only [resolveIngredients] at hmem ⊢
      rcases ih _ _ iid hmem with hacc | ⟨i, hmem', hid, hu, hname⟩
      · unfold addRel at hacc
        split at hacc
        · exact Or.inl hacc
        · rcases List.mem_append.mp hacc with h | h
          · exact Or.inl h
          · obtain ⟨i, hmem', hid, hu, hn⟩ := getOrCreateIngredient_spec u d db
            rw [List.mem_singleton] at h
            refine Or.inr ⟨i, mem_ingredients_of_resolveIngredients u rest _ _ i hmem', ?_, hu, ?_⟩
            · rw [hid, h]
            · rw [hn]
              simp [ingredientNames]
      · refine Or.inr ⟨i, hmem', hid, hu, ?_⟩
        simp only [ingredientNames, List.map_cons, List.mem_cons]
        right
        simpa [ingredientNames] using hname

theorem getOrCreateIngredient_table_wf (u : Nat) (d : IngIn) (db : Db)
    (h1 : (db.ingredients.map Ingredient.id).Nodup)
    (h2 : ∀ i ∈ db.ingredients, i.id < db.nextIngredientId) :
    ((getOrCreateIngredient u d db).2.ingredients.map Ingredient.id).Nodup ∧
    ∀ i ∈ (getOrCreateIngredient u d db).2.ingredients,
      i.id < (getOrCreateIngredient u d db).2.nextIngredientId := by
  cases hf : db.ingredients.find? (fun i => i.user == u && i.name == d.name) with
  | some i => simp only [getOrCreateIngredient, hf]; exact ⟨h1, h2⟩
  | none =>
      simp only [getOrCreateIngredient, hf]
      constructor
      · rw [List.map_append, List.nodup_append]
        refine ⟨h1, by simp, ?_⟩
        intro x hx hx2
        simp only [List.map_cons, List.map_nil, List.mem_singleton] at hx2
        obtain ⟨i, hi, rfl⟩ := List.mem_map.mp hx
        exact Nat.lt_irrefl _ (hx2 ▸ h2 i hi)
      · intro i hi
        rcases List.mem_append.mp hi with h | h
        · exact Nat.lt_trans (h2 i h) (Nat.lt_succ_self _)
        · rw [List.mem_singleton] at h
          rw [h]
          exact Nat.lt_succ_self _

theorem resolveIngredients_table_wf (u : Nat) (ds : List IngIn) (acc : List Nat) (db : Db)
    (h1 : (db.ingredients.map Ingredient.id).Nodup)
    (h2 : ∀ i ∈ db.ingredients, i.id < db.nextIngredientId) :
    ((resolveIngredients u ds acc db).2.ingredients.map Ingredient.id).Nodup ∧
    ∀ i ∈ (resolveIngredients u ds acc db).2.ingredients,
      i.id < (resolveIngredients u ds acc db).2.nextIngredientId := by
  induction ds generalizing acc db with
  | nil => exact ⟨h1, h2⟩
  | cons d rest ih =>
      simp only [resolveIngredients]
      obtain ⟨h1', h2'⟩ := getOrCreateIngredient_table_wf u d db h1 h2
      exact ih _ _ h1' h2'

/-- C1: for every pair of distinct users A and B and every recipe owned by B,
a delete request by A against that recipe returns a not-found outcome (never a
forbidden outcome), and the recipe record remains in the store unchanged. -/
theorem delete_other_users_recipe_not_found
    (db : Db) (A B rid : Nat) (r : Recipe)
    (hWf : db.Wf) (hAB : A ≠ B)
    (hr : r ∈ db.recipes) (hid : r.id = rid) (hu : r.user = B) :
    (deleteRecipe db A rid).1 = Except.error ApiError.notFound ∧
    (deleteRecipe db A rid).1 ≠ Except.error ApiError.forbidden ∧
    (deleteRecipe db A rid).2 = db ∧
    r ∈ (deleteRecipe db A rid).2.recipes := by
  have hany : db.recipes.any (fun x => x.id == rid && x.user == A) = false := by
    rw [List.any_eq_false]
    intro x hx hpx
    simp only [Bool.and_eq_true, beq_iff_eq] at hpx
    have hxr : x = r := List.inj_on_of_nodup_map hWf.1 hx hr (by rw [hpx.1, hid])
    rw [hxr] at hpx
    exact hAB (hpx.2.symm.trans hu)
  refine ⟨by simp [deleteRecipe, hany], by simp [deleteRecipe, hany],
    by simp [deleteRecipe, hany], ?_⟩
  simpa [deleteRecipe, hany] using hr

/-- C1 witness: user 1 deleting user 2's recipe (id 10) in the sample store. -/
theorem delete_other_users_recipe_not_found_witness :
    (deleteRecipe dbA 1 10).1 = Except.error ApiError.notFound ∧
    (deleteRecipe dbA 1 10).1 ≠ Except.error ApiError.forbidden ∧
    (deleteRecipe dbA 1 10).2 = dbA ∧
    recipeA ∈ (deleteRecipe dbA 1 10).2.recipes :=
  delete_other_users_recipe_not_found dbA 1 2 10 recipeA (by decide) (by decide)
    (by decide) (by decide) (by decide)

/-- C4: a difficulty value outside [0,5] on create or update is rejected with
a field-scoped validation failure and the store is unchanged; a value inside
[0,5] is accepted and stored on the recipe. -/
theorem difficulty_bounds_enforced
    (db : Db) (U clock rid : Nat) (p : RecipeCreateIn) (q : RecipePatchIn)
    (d e : Int) (r0 : Recipe)
    (hp : p.difficulty = some d) (hq : q.difficulty = some e)
    (hr0 : r0 ∈ db.recipes) (hid : r0.id = rid) (hown : r0.user = U) :
    (¬ (0 ≤ d ∧ d ≤ 5) →
      createRecipe db U clock p = (Except.error (ApiError.validation "difficulty"), db)) ∧
    ((0 ≤ d ∧ d ≤ 5) →
      ∃ r, (createRecipe db U clock p).1 = Except.ok r ∧ r.difficulty = d ∧
        r ∈ (createRecipe db U clock p).2.recipes) ∧
    (¬ (0 ≤ e ∧ e ≤ 5) →
      updateRecipe db U rid q = (Except.error (ApiError.validation "difficulty"), db)) ∧
    ((0 ≤ e ∧ e ≤ 5) →
      ∃ r', (updateRecipe db U rid q).1 = Except.ok r' ∧ r'.difficulty = e) := by
  have hfind : (db.recipes.find? (fun x => x.id == rid && x.user == U)).isSome :=
    List.find?_isSome.mpr ⟨r0, hr0, by simp [hid, hown]⟩
  obtain ⟨r1, hf⟩ := Option.isSome_iff_exists.mp hfind
  refine ⟨?_, ?_, ?_, ?_⟩
  · intro hnot
    have hc : checkDifficulty (p.difficulty.getD 0) = false := by
      rw [hp]
      simp only [Option.getD_some, checkDifficulty]
      simpa using fun h1 h2 => hnot ⟨h1, h2⟩
    simp [createRecipe, hc]
  · intro hin
    have hc : checkDifficulty (p.difficulty.getD 0) = true := by
      rw [hp]
      simp only [Option.getD_some, checkDifficulty]
      simp [hin.1, hin.2]
    refine ⟨(createRecipeData db U clock p).1, by simp [createRecipe, hc], ?_, ?_⟩
    · rw [createRecipeData_difficulty, hp]
      rfl
    · have : (createRecipe db U clock p).2 = (createRecipeData db U clock p).2 := by
        simp [createRecipe, hc]
      rw [this, createRecipeData_recipes]
      exact List.mem_append_right _ (by simp)
  · intro hnot
    have hc : checkDifficulty e = false := by
      simp only [checkDifficulty]
      simpa using fun h1 h2 => hnot ⟨h1, h2⟩
    simp [updateRecipe, hf, hq, hc]
  · intro hin
    have hc : checkDifficulty e = true := by
      simp [checkDifficulty, hin.1, hin.2]
    have hall : ∀ x, q.difficulty = some x → checkDifficulty x = true := by
      intro x hx
      rw [hq] at hx
      injection hx with hx
      rw [← hx]
      exact hc
    rw [updateRecipe_found db U rid q r1 hf hall]
    refine ⟨updatedRecipe db U r1 q, rfl, ?_⟩
    rw [updatedRecipe_difficulty, hq]
    rfl

/-- C4 witness: create with difficulty 5 (accepted, stored) and patch recipe 11
with difficulty 6 (rejected) in the sample store. -/
theorem difficulty_bounds_enforced_witness :
    (¬ ((0 : Int) ≤ 5 ∧ (5 : Int) ≤ 5) →
      createRecipe dbA 1 42 plainCreate = (Except.error (ApiError.validation "difficulty"), dbA)) ∧
    (((0 : Int) ≤ 5 ∧ (5 : Int) ≤ 5) →
      ∃ r, (createRecipe dbA 1 42 plainCreate).1 = Except.ok r ∧ r.difficulty = 5 ∧
        r ∈ (createRecipe dbA 1 42 plainCreate).2.recipes) ∧
    (¬ ((0 : Int) ≤ 6 ∧ (6 : Int) ≤ 5) →
      updateRecipe dbA 1 11 { emptyPatch with difficulty := some 6 }
        = (Except.error (ApiError.validation "difficulty"), dbA)) ∧
    (((0 : Int) ≤ 6 ∧ (6 : Int) ≤ 5) →
      ∃ r', (updateRecipe dbA 1 11 { emptyPatch with difficulty := some 6 }).1
        = Except.ok r' ∧ r'.difficulty = 6) :=
  difficulty_bounds_enforced dbA 1 42 11 plainCreate
    { emptyPatch with difficulty := some 6 } 5 6 recipeB
    (by decide) (by decide) (by decide) (by decide) (by decide)

/-- C8: an update whose payload carries a user value different from the
current owner succeeds, the owner is retained, and the other submitted scalar
fields take effect. -/
theorem update_user_field_silently_ignored
    (db : Db) (U rid v : Nat) (p : RecipePatchIn) (r0 : Recipe)
    (hr0 : r0 ∈ db.recipes) (hid : r0.id = rid) (hown : r0.user = U)
    (hv : p.user = some v) (hvne : v ≠ U)
    (hdv : ∀ d, p.difficulty = some d → checkDifficulty d = true) :
    ∃ r' db', updateRecipe db U rid p = (Except.ok r', db') ∧
      r'.user = U ∧
      (∀ x, p.title = some x → r'.title = x) ∧
      (∀ n, p.time_minutes = some n → r'.time_minutes = n) ∧
      (∀ x, p.price = some x → r'.price = x) ∧
      (∀ x, p.link = some x → r'.link = x) ∧
      (∀ x, p.description = some x → r'.description = x) ∧
      (∀ dd, p.difficulty = some dd → r'.difficulty = dd) := by
  have hfind : (db.recipes.find? (fun x => x.id == rid && x.user == U)).isSome :=
    List.find?_isSome.mpr ⟨r0, hr0, by simp [hid, hown]⟩
  obtain ⟨r1, hf⟩ := Option.isSome_iff_exists.mp hfind
  have hpred := List.find?_some hf
  simp only [Bool.and_eq_true, beq_iff_eq] at hpred
  refine ⟨updatedRecipe db U r1 p, updatedDb db U r1 p,
    updateRecipe_found db U rid p r1 hf hdv, ?_, ?_, ?_, ?_, ?_, ?_, ?_⟩
  · rw [updatedRecipe_user]
    exact hpred.2
  · intro x hx
    simp [updatedRecipe, applyScalars, hx]
  · intro n hn
    simp [updatedRecipe, applyScalars, hn]
  · intro x hx
    simp [updatedRecipe, applyScalars, hx]
  · intro x hx
    simp [updatedRecipe, applyScalars, hx]
  · intro x hx
    simp [updatedRecipe, applyScalars, hx]
  · intro dd hdd
    simp [updatedRecipe, applyScalars, hdd]

/-- C8 witness: patching recipe 11 (owner 1) with user 3 and a new title. -/
theorem update_user_field_silently_ignored_witness :
    ∃ r' db',
      updateRecipe dbA 1 11 patchWithUser = (Except.ok r', db') ∧
      r'.user = 1 ∧
      (∀ x, patchWithUser.title = some x → r'.title = x) ∧
      (∀ n, patchWithUser.time_minutes = some n → r'.time_minutes = n) ∧
      (∀ x, patchWithUser.price = some x → r'.price = x) ∧
      (∀ x, patchWithUser.link = some x → r'.link = x) ∧
      (∀ x, patchWithUser.description = some x → r'.description = x) ∧
      (∀ dd, patchWithUser.difficulty = some dd → r'.difficulty = dd) :=
  update_user_field_silently_ignored dbA 1 11 3 patchWithUser
    recipeB (by decide) (by decide) (by decide) (by decide) (by decide)
    (fun d hd => by injection hd with h; rw [← h]; decide)

/-- C9: the serialized wire representation of a user consists of exactly the
email and name fields — the password is not among them — both for a direct
serialization and for the body returned by a successful user-create
request. -/
theorem password_never_in_wire
    (u : UserRec) (db : Db) (p : UserIn) (body : List (String × String)) (db' : Db)
    (h : createUser db p = (Except.ok body, db')) :
    (serializeUser u).map Prod.fst = ["email", "name"] ∧
    (∀ kv ∈ serializeUser u, kv.1 ≠ "password") ∧
    body.map Prod.fst = ["email", "name"] ∧
    (∀ kv ∈ body, kv.1 ≠ "password") := by
  have hbody : ∃ w : UserRec, body = serializeUser w := by
    unfold createUser at h
    split at h
    · simp at h
    · split at h
      · simp at h
      · have h1 := congrArg Prod.fst h
        simp only [Except.ok.injEq] at h1
        exact ⟨⟨db.nextUserId, p.email, p.password, p.name⟩, h1.symm⟩
  obtain ⟨w, rfl⟩ := hbody
  refine ⟨rfl, ?_, rfl, ?_⟩ <;>
    · intro kv hkv
      simp only [serializeUser, userFields, userFieldValue, List.filter, List.map,
        List.mem_cons, List.not_mem_nil, or_false] at hkv
      rcases hkv with rfl | rfl <;> simp

/-- C9 witness: creating a user in the empty store; the response body holds
exactly email and name. -/
theorem password_never_in_wire_witness :
    (serializeUser ⟨0, "user@example.com", "secret123", "Alice"⟩).map Prod.fst
      = ["email", "name"] ∧
    (∀ kv ∈ serializeUser (⟨0, "user@example.com", "secret123", "Alice"⟩ : UserRec),
      kv.1 ≠ "password") ∧
    ([("email", "user@example.com"), ("name", "Alice")] : List (String × String)).map Prod.fst
      = ["email", "name"] ∧
    (∀ kv ∈ ([("email", "user@example.com"), ("name", "Alice")] : List (String × String)),
      kv.1 ≠ "password") :=
  password_never_in_wire ⟨0, "user@example.com", "secret123", "Alice"⟩ emptyDb
    ⟨"user@example.com", "secret123", "Alice"⟩
    [("email", "user@example.com"), ("name", "Alice")]
    { emptyDb with users := [⟨0, "user@example.com", "secret123", "Alice"⟩], nextUserId := 1 }
    rfl

/-- C10: a user-create request with a password shorter than 5 characters is
rejected with a password validation failure and no record is created;
a password of length at least 5 passes this check. -/
theorem password_min_length_enforced (db : Db) (p : UserIn) :
    (p.password.length < 5 →
      createUser db p = (Except.error (ApiError.validation "password"), db)) ∧
    (5 ≤ p.password.length →
      (createUser db p).1 ≠ Except.error (ApiError.validation "password")) := by
  constructor
  · intro h
    simp [createUser, minPasswordLength, h]
  · intro h
    have h' : ¬ p.password.length < minPasswordLength := by
      simp only [minPasswordLength]
      omega
    by_cases h2 : db.users.any (fun x => x.email == p.email) = true
    · simp [createUser, h', h2]
    · simp [createUser, h', h2]

/-- C10 witness: a 2-character password is rejected with the store unchanged;
a 9-character password passes the length check. -/
theorem password_min_length_enforced_witness :
    createUser emptyDb ⟨"user@example.com", "pw", "Alice"⟩
      = (Except.error (ApiError.validation "password"), emptyDb) ∧
    (createUser emptyDb ⟨"user@example.com", "secret123", "Alice"⟩).1
      ≠ Except.error (ApiError.validation "password") :=
  ⟨(password_min_length_enforced emptyDb ⟨"user@example.com", "pw", "Alice"⟩).1 (by decide),
   (password_min_length_enforced emptyDb ⟨"user@example.com", "secret123", "Alice"⟩).2 (by decide)⟩

/-- C5: the recipe list under a tag-id filter contains exactly the caller's
recipes having at least one tag whose id is in the parsed id set, each
once. -/
theorem filter_by_tags_exact (db : Db) (U : Nat) (s : String) (hWf : db.Wf) :
    (∀ r, r ∈ listRecipes db U (some s) none ↔
      (r ∈ db.recipes ∧ r.user = U ∧ ∃ tid ∈ r.tagIds, tid ∈ parseIds s)) ∧
    ((listRecipes db U (some s) none).map Recipe.id).Nodup := by
  constructor
  · intro r
    simp only [listRecipes, List.mem_filter, recipeMatchesTags, List.any_eq_true,
      Bool.and_eq_true, beq_iff_eq, Bool.and_true, List.elem_iff]
    tauto
  · have hsub : (listRecipes db U (some s) none).Sublist db.recipes := by
      simp only [listRecipes]
      exact (List.filter_sublist _).trans (List.filter_sublist _)
    exact List.Nodup.sublist (hsub.map Recipe.id) hWf.1

/-- C5 witness: the tag-id filter "5,9" over the sample store for user 1. -/
theorem filter_by_tags_exact_witness :
    (∀ r, r ∈ listRecipes dbA 1 (some "5,9") none ↔
      (r ∈ dbA.recipes ∧ r.user = 1 ∧ ∃ tid ∈ r.tagIds, tid ∈ parseIds "5,9")) ∧
    ((listRecipes dbA 1 (some "5,9") none).map Recipe.id).Nodup :=
  filter_by_tags_exact dbA 1 "5,9" (by decide)

/-- C6: with the assigned-only flag set, the ingredient and tag list
operations return exactly the caller's entities referenced by at least one of
the caller's recipes, each once. -/
theorem assigned_only_exact (db : Db) (U : Nat) (hWf : db.Wf) :
    (∀ i, i ∈ listIngredients db U true ↔
      (i ∈ db.ingredients ∧ i.user = U ∧
        ∃ r ∈ db.recipes, r.user = U ∧ i.id ∈ r.ingredientIds)) ∧
    ((listIngredients db U true).map Ingredient.id).Nodup ∧
    (∀ t, t ∈ listTags db U true ↔
      (t ∈ db.tags ∧ t.user = U ∧
        ∃ r ∈ db.recipes, r.user = U ∧ t.id ∈ r.tagIds)) ∧
    ((listTags db U true).map Tag.id).Nodup := by
  refine ⟨?_, ?_, ?_, ?_⟩
  · intro i
    simp only [listIngredients, List.mem_filter, List.any_eq_true,
      Bool.and_eq_true, beq_iff_eq, Bool.not_true, Bool.false_or, List.elem_iff]
    tauto
  · have hsub : (listIngredients db U true).Sublist db.ingredients := by
      simp only [listIngredients]
      exact (List.filter_sublist _).trans (List.filter_sublist _)
    exact List.Nodup.sublist (hsub.map Ingredient.id) hWf.2.2.1
  · intro t
    simp only [listTags, List.mem_filter, List.any_eq_true,
      Bool.and_eq_true, beq_iff_eq, Bool.not_true, Bool.false_or, List.elem_iff]
    tauto
  · have hsub : (listTags db U true).Sublist db.tags := by
      simp only [listTags]
      exact (List.filter_sublist _).trans (List.filter_sublist _)
    exact List.Nodup.sublist (hsub.map Tag.id) hWf.2.1

/-- C6 witness: assigned-only listing over the sample store for user 1. -/
theorem assigned_only_exact_witness :
    (∀ i, i ∈ listIngredients dbA 1 true ↔
      (i ∈ dbA.ingredients ∧ i.user = 1 ∧
        ∃ r ∈ dbA.recipes, r.user = 1 ∧ i.id ∈ r.ingredientIds)) ∧
    ((listIngredients dbA 1 true).map Ingredient.id).Nodup ∧
    (∀ t, t ∈ listTags dbA 1 true ↔
      (t ∈ dbA.tags ∧ t.user = 1 ∧
        ∃ r ∈ dbA.recipes, r.user = 1 ∧ t.id ∈ r.tagIds)) ∧
    ((listTags dbA 1 true).map Tag.id).Nodup :=
  assigned_only_exact dbA 1 (by decide)

/-- C7: the creation timestamp is stamped from the clock at creation (hence
never null), and every successful update leaves the stored target's timestamp
unchanged; in particular an update right after creation returns the original
timestamp. -/
theorem timestamp_assigned_once_immutable
    (db : Db) (U c : Nat) (p : RecipeCreateIn) (r : Recipe) (db1 : Db)
    (q : RecipePatchIn) (r' : Recipe) (db' : Db)
    (hWf : db.Wf)
    (hc : createRecipe db U c p = (Except.ok r, db1))
    (hu : updateRecipe db1 U r.id q = (Except.ok r', db')) :
    r.timestamp = some c ∧ r.timestamp ≠ none ∧ r'.timestamp = some c ∧
    ∀ (db2 : Db) (u2 rid2 : Nat) (q2 : RecipePatchIn) (r2 : Recipe) (db2' : Db),
      updateRecipe db2 u2 rid2 q2 = (Except.ok r2, db2') →
      ∃ r0, r0 ∈ db2.recipes ∧ r0.id = rid2 ∧ r0.user = u2 ∧
        r2.timestamp = r0.timestamp := by
  have hgen : ∀ (db2 : Db) (u2 rid2 : Nat) (q2 : RecipePatchIn) (r2 : Recipe) (db2' : Db),
      updateRecipe db2 u2 rid2 q2 = (Except.ok r2, db2') →
      ∃ r0, r0 ∈ db2.recipes ∧ r0.id = rid2 ∧ r0.user = u2 ∧
        r2.timestamp = r0.timestamp := by
    intro db2 u2 rid2 q2 r2 db2' h
    obtain ⟨r0, hf, -, hr2, -⟩ := updateRecipe_ok_inv db2 u2 rid2 q2 r2 db2' h
    have hpred := List.find?_some hf
    simp only [Bool.and_eq_true, beq_iff_eq] at hpred
    exact ⟨r0, List.mem_of_find?_eq_some hf, hpred.1, hpred.2,
      by rw [hr2, updatedRecipe_timestamp]⟩
  obtain ⟨-, hr, hdb1⟩ := createRecipe_ok_inv db U c p r db1 hc
  have hts : r.timestamp = some c := by rw [hr, createRecipeData_timestamp]
  refine ⟨hts, by rw [hts]; exact Option.noConfusion, ?_, hgen⟩
  obtain ⟨r0, hmem, hid0, -, hts'⟩ := hgen db1 U r.id q r' db' hu
  have hr0r : r0 = r := by
    have hrecs : db1.recipes = db.recipes ++ [r] := by
      rw [hdb1, createRecipeData_recipes, ← hr]
    rw [hrecs] at hmem
    rcases List.mem_append.mp hmem with hl | hl
    · exfalso
      have hlt : r0.id < db.nextRecipeId := hWf.2.2.2.1 r0 hl
      have hidr : r.id = db.nextRecipeId := by rw [hr, createRecipeData_id]
      rw [hid0, hidr] at hlt
      exact Nat.lt_irrefl _ hlt
    · exact List.mem_singleton.mp hl
  rw [hts', hr0r, hts]

/-- C7 witness: create `plainCreate` at clock 42 in the sample store, then
patch the new recipe (id 12) with the empty payload. -/
theorem timestamp_assigned_once_immutable_witness :
    recipeC.timestamp = some 42 ∧ recipeC.timestamp ≠ none ∧
    recipeC.timestamp = some 42 ∧
    ∀ (db2 : Db) (u2 rid2 : Nat) (q2 : RecipePatchIn) (r2 : Recipe) (db2' : Db),
      updateRecipe db2 u2 rid2 q2 = (Except.ok r2, db2') →
      ∃ r0, r0 ∈ db2.recipes ∧ r0.id = rid2 ∧ r0.user = u2 ∧
        r2.timestamp = r0.timestamp :=
  timestamp_assigned_once_immutable dbA 1 42 plainCreate recipeC dbB
    emptyPatch recipeC dbB (by decide) rfl rfl

theorem countTag_congr (db db' : Db) (h : db.tags = db'.tags) (u : Nat) (n : String) :
    countTag db u n = countTag db' u n := by
  unfold countTag
  rw [h]

theorem countTag_eq_one_unique (db : Db) (u : Nat) (n : String) (h : countTag db u n = 1)
    (a b : Tag) (ha : a ∈ db.tags) (hau : a.user = u) (han : a.name = n)
    (hb : b ∈ db.tags) (hbu : b.user = u) (hbn : b.name = n) : a = b := by
  unfold countTag at h
  obtain ⟨x, hx⟩ := List.length_eq_one.mp h
  have hax : a ∈ db.tags.filter (fun t => t.user == u && t.name == n) :=
    List.mem_filter.mpr ⟨ha, by simp [hau, han]⟩
  have hbx : b ∈ db.tags.filter (fun t => t.user == u && t.name == n) :=
    List.mem_filter.mpr ⟨hb, by simp [hbu, hbn]⟩
  rw [hx, List.mem_singleton] at hax hbx
  rw [hax, hbx]

/-- C2: creating two recipes for the same user, each carrying a tag descriptor
named N, leaves exactly one tag record named N owned by that user, and both
recipes reference it. -/
theorem nested_tag_resolution_idempotent
    (db : Db) (U c1 c2 : Nat) (p1 p2 : RecipeCreateIn) (N : String)
    (r1 r2 : Recipe) (db1 db2 : Db)
    (hn1 : N ∈ tagNames p1.tags) (hn2 : N ∈ tagNames p2.tags)
    (hcount : countTag db U N ≤ 1)
    (hc1 : createRecipe db U c1 p1 = (Except.ok r1, db1))
    (hc2 : createRecipe db1 U c2 p2 = (Except.ok r2, db2)) :
    countTag db2 U N = 1 ∧
    ∃ tid t, tid ∈ r1.tagIds ∧ tid ∈ r2.tagIds ∧
      t ∈ db2.tags ∧ t.id = tid ∧ t.user = U ∧ t.name = N := by
  obtain ⟨-, hr1, hdb1⟩ := createRecipe_ok_inv db U c1 p1 r1 db1 hc1
  obtain ⟨-, hr2, hdb2⟩ := createRecipe_ok_inv db1 U c2 p2 r2 db2 hc2
  have htags1 : db1.tags = (resolveTags U p1.tags [] db).2.tags := by
    rw [hdb1]
    exact createRecipeData_tags db U c1 p1
  have htags2 : db2.tags = (resolveTags U p2.tags [] db1).2.tags := by
    rw [hdb2]
    exact createRecipeData_tags db1 U c2 p2
  have hcnt1 : countTag db1 U N = 1 := by
    rw [countTag_congr db1 (resolveTags U p1.tags [] db).2 htags1]
    exact Nat.le_antisymm (resolveTags_count_le U p1.tags [] db U N hcount)
      (resolveTags_count_ge_one U p1.tags [] db N hn1)
  have hcnt2 : countTag db2 U N = 1 := by
    rw [countTag_congr db2 (resolveTags U p2.tags [] db1).2 htags2]
    exact Nat.le_antisymm
      (resolveTags_count_le U p2.tags [] db1 U N (Nat.le_of_eq hcnt1))
      (resolveTags_count_ge_one U p2.tags [] db1 N hn2)
  obtain ⟨tid1, t1, htid1, ht1mem, ht1id, ht1u, ht1n⟩ :=
    resolveTags_attaches U p1.tags [] db N hn1
  obtain ⟨tid2, t2, htid2, ht2mem, ht2id, ht2u, ht2n⟩ :=
    resolveTags_attaches U p2.tags [] db1 N hn2
  have htid1r : tid1 ∈ r1.tagIds := by
    rw [hr1, createRecipeData_tagIds]
    exact htid1
  have htid2r : tid2 ∈ r2.tagIds := by
    rw [hr2, createRecipeData_tagIds]
    exact htid2
  have ht1db2 : t1 ∈ db2.tags := by
    rw [htags2]
    apply mem_tags_of_resolveTags
    rw [htags1]
    exact ht1mem
  have ht2db2 : t2 ∈ db2.tags := by
    rw [htags2]
    exact ht2mem
  have heq : t1 = t2 :=
    countTag_eq_one_unique db2 U N hcnt2 t1 t2 ht1db2 ht1u ht1n ht2db2 ht2u ht2n
  refine ⟨hcnt2, tid1, t1, htid1r, ?_, ht1db2, ht1id, ht1u, ht1n⟩
  have : tid1 = tid2 := by rw [← ht1id, heq, ht2id]
  rw [this]
  exact htid2r

/-- C2 witness: two Vegan creations from the empty store for user 1. -/
theorem nested_tag_resolution_idempotent_witness :
    countTag dbV2 1 "Vegan" = 1 ∧
    ∃ tid t, tid ∈ recipeV1.tagIds ∧ tid ∈ recipeV2.tagIds ∧
      t ∈ dbV2.tags ∧ t.id = tid ∧ t.user = 1 ∧ t.name = "Vegan" :=
  nested_tag_resolution_idempotent emptyDb 1 1 2 createVegan createVegan "Vegan"
    recipeV1 recipeV2 dbV1 dbV2 (by decide) (by decide) (by decide) rfl rfl

theorem patchTagIds_nextIngredientId (db : Db) (u : Nat) (r : Recipe) (p : RecipePatchIn) :
    (patchTagIds db u r p).2.nextIngredientId = db.nextIngredientId := by
  cases h : p.tags with
  | none => simp [patchTagIds, h]
  | some ds => simp [patchTagIds, h, resolveTags_nextIngredientId]

theorem patchTagIds_mem_tags (db : Db) (u : Nat) (r : Recipe) (p : RecipePatchIn)
    (t : Tag) (ht : t ∈ db.tags) : t ∈ (patchTagIds db u r p).2.tags := by
  cases h : p.tags with
  | none => simpa [patchTagIds, h] using ht
  | some ds =>
      rw [patchTagIds_some db u r p ds h]
      exact mem_tags_of_resolveTags u ds [] db t ht

theorem patchIngredientIds_mem_ingredients (db : Db) (u : Nat) (r : Recipe)
    (p : RecipePatchIn) (i : Ingredient) (hi : i ∈ db.ingredients) :
    i ∈ (patchIngredientIds db u r p).2.ingredients := by
  cases h : p.ingredients with
  | none => simpa [patchIngredientIds, h] using hi
  | some ds =>
      rw [patchIngredientIds_some db u r p ds h]
      exact mem_ingredients_of_resolveIngredients u ds [] db i hi

/-- C3: when an update payload contains the tags (resp. ingredients) field,
the recipe's relationship set afterwards is exactly the resolved set of the
supplied descriptors — every attached id is a record owned by the caller with
a name from the payload, every payload name is attached, previously attached
records not named in the payload are detached, an empty list leaves zero
associations — and no underlying tag or ingredient record is deleted. -/
theorem update_replaces_relationship_sets
    (db : Db) (U rid : Nat) (p : RecipePatchIn) (r' : Recipe) (db' : Db)
    (hWf : db.Wf)
    (h : updateRecipe db U rid p = (Except.ok r', db')) :
    (∀ ds, p.tags = some ds →
      (∀ tid ∈ r'.tagIds,
        ∃ t, t ∈ db'.tags ∧ t.id = tid ∧ t.user = U ∧ t.name ∈ tagNames ds) ∧
      (∀ n ∈ tagNames ds,
        ∃ t, t ∈ db'.tags ∧ t.user = U ∧ t.name = n ∧ t.id ∈ r'.tagIds) ∧
      (∀ t0 ∈ db.tags, (t0.user ≠ U ∨ t0.name ∉ tagNames ds) → t0.id ∉ r'.tagIds) ∧
      (ds = [] → r'.tagIds = [])) ∧
    (∀ es, p.ingredients = some es →
      (∀ iid ∈ r'.ingredientIds,
        ∃ i, i ∈ db'.ingredients ∧ i.id = iid ∧ i.user = U ∧
          i.name ∈ ingredientNames es) ∧
      (∀ n ∈ ingredientNames es,
        ∃ i, i ∈ db'.ingredients ∧ i.user = U ∧ i.name = n ∧ i.id ∈ r'.ingredientIds) ∧
      (∀ i0 ∈ db.ingredients, (i0.user ≠ U ∨ i0.name ∉ ingredientNames es) →
        i0.id ∉ r'.ingredientIds) ∧
      (es = [] → r'.ingredientIds = [])) ∧
    (∀ t0 ∈ db.tags, t0 ∈ db'.tags) ∧
    (∀ i0 ∈ db.ingredients, i0 ∈ db'.ingredients) := by
  obtain ⟨r0, hf, -, hr', hdb'⟩ := updateRecipe_ok_inv db U rid p r' db' h
  have hids : r'.tagIds = (patchTagIds db U r0 p).1 := by
    rw [hr', updatedRecipe_tagIds]
  have hiids : r'.ingredientIds = (patchIngredientIds (patchTagIds db U r0 p).2 U r0 p).1 := by
    rw [hr', updatedRecipe_ingredientIds]
  have htags : db'.tags = (patchTagIds db U r0 p).2.tags := by
    rw [hdb', updatedDb_tags]
  have hings : db'.ingredients
      = (patchIngredientIds (patchTagIds db U r0 p).2 U r0 p).2.ingredients := by
    rw [hdb', updatedDb_ingredients]
  refine ⟨?_, ?_, ?_, ?_⟩
  · intro ds hds
    have hpt : patchTagIds db U r0 p = resolveTags U ds [] db :=
      patchTagIds_some db U r0 p ds hds
    have hids' : r'.tagIds = (resolveTags U ds [] db).1 := by rw [hids, hpt]
    have htags' : db'.tags = (resolveTags U ds [] db).2.tags := by rw [htags, hpt]
    refine ⟨?_, ?_, ?_, ?_⟩
    · intro tid htid
      rw [hids'] at htid
      rcases resolveTags_ids_sound U ds [] db tid htid with hnil | ⟨t, hmem, hid, hu, hn⟩
      · cases hnil
      · exact ⟨t, by rw [htags']; exact hmem, hid, hu, hn⟩
    · intro n hn
      obtain ⟨tid, t, htid, hmem, hid, hu, hname⟩ := resolveTags_attaches U ds [] db n hn
      refine ⟨t, by rw [htags']; exact hmem, hu, hname, ?_⟩
      rw [hids', hid]
      exact htid
    · intro t0 ht0 hdisj htid
      rw [hids'] at htid
      rcases resolveTags_ids_sound U ds [] db t0.id htid with hnil | ⟨t, hmem, hid, hu, hn⟩
      · cases hnil
      · obtain ⟨hnodup, -⟩ := resolveTags_table_wf U ds [] db hWf.2.1 hWf.2.2.2.2.1
        have ht0r : t0 ∈ (resolveTags U ds [] db).2.tags :=
          mem_tags_of_resolveTags U ds [] db t0 ht0
        have : t = t0 := List.inj_on_of_nodup_map hnodup hmem ht0r hid
        rw [this] at hu hn
        rcases hdisj with hd | hd
        · exact hd hu
        · exact hd hn
    · intro hnil
      rw [hids', hnil]
      rfl
  · intro es hes
    have hpi : patchIngredientIds (patchTagIds db U r0 p).2 U r0 p
        = resolveIngredients U es [] (patchTagIds db U r0 p).2 :=
      patchIngredientIds_some (patchTagIds db U r0 p).2 U r0 p es hes
    have hbase_ings : (patchTagIds db U r0 p).2.ingredients = db.ingredients :=
      patchTagIds_ingredients db U r0 p
    have hiids' : r'.ingredientIds
        = (resolveIngredients U es [] (patchTagIds db U r0 p).2).1 := by
      rw [hiids, hpi]
    have hings' : db'.ingredients
        = (resolveIngredients U es [] (patchTagIds db U r0 p).2).2.ingredients := by
      rw [hings, hpi]
    refine ⟨?_, ?_, ?_, ?_⟩
    · intro iid hiid
      rw [hiids'] at hiid
      rcases resolveIngredients_ids_sound U es [] (patchTagIds db U r0 p).2 iid hiid with
        hnil | ⟨i, hmem, hid, hu, hn⟩
      · cases hnil
      · exact ⟨i, by rw [hings']; exact hmem, hid, hu, hn⟩
    · intro n hn
      obtain ⟨iid, i, hiid, hmem, hid, hu, hname⟩ :=
        resolveIngredients_attaches U es [] (patchTagIds db U r0 p).2 n hn
      refine ⟨i, by rw [hings']; exact hmem, hu, hname, ?_⟩
      rw [hiids', hid]
      exact hiid
    · intro i0 hi0 hdisj hiid
      rw [hiids'] at hiid
      rcases resolveIngredients_ids_sound U es [] (patchTagIds db U r0 p).2 i0.id hiid with
        hnil | ⟨i, hmem, hid, hu, hn⟩
      · cases hnil
      · have hn1 : ((patchTagIds db U r0 p).2.ingredients.map Ingredient.id).Nodup := by
          rw [hbase_ings]
          exact hWf.2.2.1
        have hn2 : ∀ x ∈ (patchTagIds db U r0 p).2.ingredients,
            x.id < (patchTagIds db U r0 p).2.nextIngredientId := by
          rw [hbase_ings, patchTagIds_nextIngredientId]
          exact hWf.2.2.2.2.2
        obtain ⟨hnodup, -⟩ :=
          resolveIngredients_table_wf U es [] (patchTagIds db U r0 p).2 hn1 hn2
        have hi0r : i0 ∈ (resolveIngredients U es [] (patchTagIds db U r0 p).2).2.ingredients := by
          apply mem_ingredients_of_resolveIngredients
          rw [hbase_ings]
          exact hi0
        have : i = i0 := List.inj_on_of_nodup_map hnodup hmem hi0r hid
        rw [this] at hu hn
        rcases hdisj with hd | hd
        · exact hd hu
        · exact hd hn
    · intro hnil
      rw [hiids', hnil]
      rfl
  · intro t0 ht0
    rw [htags]
    exact patchTagIds_mem_tags db U r0 p t0 ht0
  · intro i0 hi0
    rw [hings]
    apply patchIngredientIds_mem_ingredients
    rw [patchTagIds_ingredients]
    exact hi0

/-- C3 witness: patching recipe 11 in the sample store, replacing the tag set
with the Vegan descriptor and clearing the ingredient set. -/
theorem update_replaces_relationship_sets_witness :
    (∀ ds, patchRelations.tags = some ds →
      (∀ tid ∈ recipeB2.tagIds,
        ∃ t, t ∈ dbC.tags ∧ t.id = tid ∧ t.user = 1 ∧ t.name ∈ tagNames ds) ∧
      (∀ n ∈ tagNames ds,
        ∃ t, t ∈ dbC.tags ∧ t.user = 1 ∧ t.name = n ∧ t.id ∈ recipeB2.tagIds) ∧
      (∀ t0 ∈ dbA.tags, (t0.user ≠ 1 ∨ t0.name ∉ tagNames ds) →
        t0.id ∉ recipeB2.tagIds) ∧
      (ds = [] → recipeB2.tagIds = [])) ∧
    (∀ es, patchRelations.ingredients = some es →
      (∀ iid ∈ recipeB2.ingredientIds,
        ∃ i, i ∈ dbC.ingredients ∧ i.id = iid ∧ i.user = 1 ∧
          i.name ∈ ingredientNames es) ∧
      (∀ n ∈ ingredientNames es,
        ∃ i, i ∈ dbC.ingredients ∧ i.user = 1 ∧ i.name = n ∧
          i.id ∈ recipeB2.ingredientIds) ∧
      (∀ i0 ∈ dbA.ingredients, (i0.user ≠ 1 ∨ i0.name ∉ ingredientNames es) →
        i0.id ∉ recipeB2.ingredientIds) ∧
      (es = [] → recipeB2.ingredientIds = [])) ∧
    (∀ t0 ∈ dbA.tags, t0 ∈ dbC.tags) ∧
    (∀ i0 ∈ dbA.ingredients, i0 ∈ dbC.ingredients) :=
  update_replaces_relationship_sets dbA 1 11 patchRelations recipeB2 dbC
    (by decide) rfl

end RecipeApp
